import Mathlib

/-!
Shallow embedding of the ranking pipeline of `backend/server.py`
(resume shortlisting service).

The ranking pipeline of the `/api/process` endpoint (`process_resumes`) is
translated into pure Lean functions:

* machine floats are modelled as rationals (`ℚ`); the float literals
  `0.3, 0.7, 0.5, 0.4, 0.2, 0.05` of the source become the exact rationals
  `3/10, 7/10, 1/2, 2/5, 1/5, 1/20`;
* the external collaborators (sentence-transformer embedding, vector norms,
  cross-encoder scoring, username regex extraction, the three reputation-site
  fetchers, the translator) are passed in as an `Oracles` record of opaque
  functions, since they are network/model calls outside the repository; a
  cross-encoder call that raises is modelled by the oracle returning `none`;
* Python's `list.sort(key=..., reverse=True)` is a stable sort by the key in
  descending order; it is modelled by `List.insertionSort` (a stable sort)
  with the decidable total preorder "greater-or-equal key";
* random `uuid.uuid4()` identifiers carry no information used by the
  pipeline's ordering or scores and are omitted from the records.
-/

namespace ResumeShortlist

/-- Statistics returned by `fetch_github_stats` (all-zero on any failure). -/
structure GithubData where
  public_repos : Nat
  followers : Nat
  total_stars : Nat
deriving DecidableEq

/-- Statistics returned by `fetch_leetcode_stats`. -/
structure LeetcodeData where
  total_solved : Nat
deriving DecidableEq

/-- Statistics returned by `fetch_codechef_stats`. -/
structure CodechefData where
  problems_solved : Nat
  rating : Nat
deriving DecidableEq

/-- The default github dict `{'public_repos': 0, 'followers': 0, 'total_stars': 0}`. -/
def zeroGithub : GithubData := ⟨0, 0, 0⟩

/-- The default leetcode dict `{'total_solved': 0}`. -/
def zeroLeetcode : LeetcodeData := ⟨0⟩

/-- The default codechef dict `{'problems_solved': 0, 'rating': 0}`. -/
def zeroCodechef : CodechefData := ⟨0, 0⟩

/-- The local `github_score` of `calculate_social_score`:
`min(100, public_repos*2 + followers*1 + total_stars*0.5)`. -/
def github_score (g : GithubData) : ℚ :=
  min 100 ((g.public_repos : ℚ) * 2 + (g.followers : ℚ) * 1 + (g.total_stars : ℚ) * (1/2))

/-- The local `leetcode_score` of `calculate_social_score`:
`min(100, total_solved*0.5)`. -/
def leetcode_score (l : LeetcodeData) : ℚ :=
  min 100 ((l.total_solved : ℚ) * (1/2))

/-- The local `codechef_score` of `calculate_social_score`:
`min(100, problems_solved*0.3 + rating*0.05)`. -/
def codechef_score (c : CodechefData) : ℚ :=
  min 100 ((c.problems_solved : ℚ) * (3/10) + (c.rating : ℚ) * (1/20))

/-- `calculate_social_score` of `server.py`: the weighted sum of the three
sub-scores, clipped at 100. -/
def calculate_social_score (g : GithubData) (l : LeetcodeData) (c : CodechefData) : ℚ :=
  min 100 (github_score g * (2/5) + leetcode_score l * (2/5) + codechef_score c * (1/5))

/-- One processed resume (the dict built in the extraction loop of
`process_resumes`): `translated_text` is optional at the data-model level;
the code stores the translator's output there. -/
structure ResumeData where
  filename : String
  original_text : String
  translated_text : Option String
deriving DecidableEq

/-- `resume['translated_text'] or resume['original_text']` — Python `or`
falls back to `original_text` when `translated_text` is `None` or `""`. -/
def effectiveText (r : ResumeData) : String :=
  match r.translated_text with
  | none => r.original_text
  | some t => if t = "" then r.original_text else t

/-- Result of `extract_social_usernames` (regex matching, modelled opaquely):
at most one username per source. -/
structure Usernames where
  github : Option String
  leetcode : Option String
  codechef : Option String
deriving DecidableEq

/-- `np.dot` on equal-length vectors (zipWith truncates on a length
mismatch, which does not occur for a fixed-dimension embedding model). -/
def listDot (a b : List ℚ) : ℚ := (List.zipWith (· * ·) a b).sum

/-- The external collaborators of the pipeline, as opaque functions:
`embed` is `model.encode`, `norm` is `np.linalg.norm` of the embedding of a
text, `crossScore jd text` is the cross-encoder prediction (`none` models a
raised exception), `usernamesOf` is `extract_social_usernames`, and the three
fetchers are the reputation-site lookups (with their failure fallbacks
already absorbed, as in the source). -/
structure Oracles where
  embed : String → List ℚ
  norm : String → ℚ
  crossScore : String → String → Option ℚ
  usernamesOf : String → Usernames
  fetchGithub : String → GithubData
  fetchLeetcode : String → LeetcodeData
  fetchCodechef : String → CodechefData

/-- The cosine similarity computed in `process_resumes`:
`np.dot(jd_embedding, resume_embedding) / (norm(jd_embedding) * norm(resume_embedding))`. -/
def retrievalSim (o : Oracles) (jd text : String) : ℚ :=
  listDot (o.embed jd) (o.embed text) / (o.norm jd * o.norm text)

/-- A candidate dict right after the bi-encoder stage. -/
structure Candidate where
  filename : String
  bi_encoder_score : ℚ
  resume_text : String
deriving DecidableEq

/-- The sort order of `candidates.sort(key=lambda x: x['bi_encoder_score'], reverse=True)`:
`a` precedes `b` when `b`'s score is at most `a`'s. -/
def biDesc (a b : Candidate) : Prop :=
  b.bi_encoder_score ≤ a.bi_encoder_score

instance : DecidableRel biDesc := fun a b =>
  inferInstanceAs (Decidable (b.bi_encoder_score ≤ a.bi_encoder_score))

instance : IsTotal Candidate biDesc :=
  ⟨fun a b => le_total b.bi_encoder_score a.bi_encoder_score⟩

instance : IsTrans Candidate biDesc :=
  ⟨fun _ _ _ h1 h2 => le_trans h2 h1⟩

/-- The bi-encoder loop of `process_resumes`: one candidate per processed
resume, scored on its effective text, in ingestion order. -/
def mkCandidates (o : Oracles) (jd : String) (rs : List ResumeData) : List Candidate :=
  rs.map fun r =>
    { filename := r.filename
      bi_encoder_score := retrievalSim o jd (effectiveText r) * 100
      resume_text := effectiveText r }

/-- `candidates.sort(key=lambda x: x['bi_encoder_score'], reverse=True)` —
a stable descending sort by `bi_encoder_score`. -/
def retrievalSorted (o : Oracles) (jd : String) (rs : List ResumeData) : List Candidate :=
  List.insertionSort biDesc (mkCandidates o jd rs)

/-- `top_candidates = candidates[:min(20, len(candidates))]`. -/
def shortlist (o : Oracles) (jd : String) (rs : List ResumeData) : List Candidate :=
  (retrievalSorted o jd rs).take (min 20 (retrievalSorted o jd rs).length)

/-- A candidate dict after the cross-encoder loop. -/
structure RerankedCandidate where
  base : Candidate
  cross_encoder_score : ℚ
deriving DecidableEq

/-- One iteration of the cross-encoder loop: on success the prediction is
scaled by 100; on an exception the candidate's `bi_encoder_score` is used. -/
def rerankOne (o : Oracles) (jd : String) (c : Candidate) : RerankedCandidate :=
  { base := c
    cross_encoder_score :=
      match o.crossScore jd c.resume_text with
      | some s => s * 100
      | none => c.bi_encoder_score }

/-- The cross-encoder loop over the whole shortlist. -/
def rerankedShortlist (o : Oracles) (jd : String) (rs : List ResumeData) :
    List RerankedCandidate :=
  (shortlist o jd rs).map (rerankOne o jd)

/-- A candidate dict after the social-score loop. -/
structure FusedCandidate where
  base : Candidate
  cross_encoder_score : ℚ
  github_data : GithubData
  leetcode_data : LeetcodeData
  codechef_data : CodechefData
  social_score : ℚ
  combined_score : ℚ
deriving DecidableEq

/-- One iteration of the social/combined-score loop of `process_resumes`:
extract usernames from the resume text, fetch stats for each present
username (defaults otherwise), compute the social score, then
`contextual_score = bi*0.3 + cross*0.7` and
`combined_score = contextual_score*0.7 + social_score*0.3`. -/
def fuseOne (o : Oracles) (c : RerankedCandidate) : FusedCandidate :=
  let u := o.usernamesOf c.base.resume_text
  let gh := match u.github with | some name => o.fetchGithub name | none => zeroGithub
  let lc := match u.leetcode with | some name => o.fetchLeetcode name | none => zeroLeetcode
  let cc := match u.codechef with | some name => o.fetchCodechef name | none => zeroCodechef
  let s := calculate_social_score gh lc cc
  let contextual_score := c.base.bi_encoder_score * (3/10) + c.cross_encoder_score * (7/10)
  { base := c.base
    cross_encoder_score := c.cross_encoder_score
    github_data := gh
    leetcode_data := lc
    codechef_data := cc
    social_score := s
    combined_score := contextual_score * (7/10) + s * (3/10) }

/-- The social/combined-score loop over the whole shortlist. -/
def fusedShortlist (o : Oracles) (jd : String) (rs : List ResumeData) :
    List FusedCandidate :=
  (rerankedShortlist o jd rs).map (fuseOne o)

/-- The sort order of `top_candidates.sort(key=lambda x: x['combined_score'], reverse=True)`. -/
def combinedDesc (a b : FusedCandidate) : Prop :=
  b.combined_score ≤ a.combined_score

instance : DecidableRel combinedDesc := fun a b =>
  inferInstanceAs (Decidable (b.combined_score ≤ a.combined_score))

instance : IsTotal FusedCandidate combinedDesc :=
  ⟨fun a b => le_total b.combined_score a.combined_score⟩

instance : IsTrans FusedCandidate combinedDesc :=
  ⟨fun _ _ _ h1 h2 => le_trans h2 h1⟩

/-- `top_candidates.sort(key=lambda x: x['combined_score'], reverse=True)`:
the in-place stable descending sort of the shortlist by combined score. -/
def finalSorted (o : Oracles) (jd : String) (rs : List ResumeData) :
    List FusedCandidate :=
  List.insertionSort combinedDesc (fusedShortlist o jd rs)

/-- `final_results = top_candidates[:10]`. -/
def final_results (o : Oracles) (jd : String) (rs : List ResumeData) :
    List FusedCandidate :=
  (finalSorted o jd rs).take 10

/-- An entry of the `bi_encoder_ranking` response payload. -/
structure BiEntry where
  filename : String
  bi_encoder_score : ℚ
  resume_text : String
deriving DecidableEq

/-- `bi_encoder_ranking = sorted(candidates, key=..., reverse=True)` projected
to the payload fields; `candidates` was already sorted in place before the
shortlist was taken, so this re-sorts the sorted list. -/
def bi_encoder_ranking (o : Oracles) (jd : String) (rs : List ResumeData) : List BiEntry :=
  (List.insertionSort biDesc (retrievalSorted o jd rs)).map fun c =>
    { filename := c.filename
      bi_encoder_score := c.bi_encoder_score
      resume_text := c.resume_text }

/-- An entry of the `cross_encoder_ranking` response payload. -/
structure CrossEntry where
  filename : String
  bi_encoder_score : ℚ
  cross_encoder_score : ℚ
  resume_text : String
deriving DecidableEq

/-- The `cross_encoder_ranking` payload: a comprehension over
`top_candidates`, which at that point has already been sorted in place by
`combined_score` (the comprehension runs after the final sort). -/
def cross_encoder_ranking (o : Oracles) (jd : String) (rs : List ResumeData) :
    List CrossEntry :=
  (finalSorted o jd rs).map fun c =>
    { filename := c.base.filename
      bi_encoder_score := c.base.bi_encoder_score
      cross_encoder_score := c.cross_encoder_score
      resume_text := c.base.resume_text }

/-- An uploaded file after the text-extraction attempt: `extractedText` is
the result of the PDF/OCR extraction cascade, `""` on failure. -/
structure RawFile where
  filename : String
  extractedText : String
deriving DecidableEq

/-- The extraction loop of `process_resumes`: files whose extracted text is
empty are skipped (`if not text: continue`); the rest are translated and
collected in upload order. -/
def processUploads (translate : String → String) (files : List RawFile) : List ResumeData :=
  files.filterMap fun f =>
    if f.extractedText = "" then none
    else some { filename := f.filename
                original_text := f.extractedText
                translated_text := some (translate f.extractedText) }

/-- The request-level failure of `process_resumes`:
`HTTPException(status_code=400, detail="No resumes could be processed")`. -/
inductive PipelineError where
  | emptyBatch
deriving DecidableEq

/-- The response payload of `process_resumes`. -/
structure PipelineResult where
  total_processed : Nat
  bi_encoder_ranking : List BiEntry
  cross_encoder_ranking : List CrossEntry
  top_candidates : List FusedCandidate
deriving DecidableEq

/-- The whole `/api/process` handler: extract, drop empty texts, fail with a
client error when nothing survives, otherwise rank and assemble the payload. -/
def runPipeline (o : Oracles) (translate : String → String) (jd : String)
    (files : List RawFile) : Except PipelineError PipelineResult :=
  let processed := processUploads translate files
  if processed.isEmpty then
    .error .emptyBatch
  else
    .ok { total_processed := processed.length
          bi_encoder_ranking := bi_encoder_ranking o jd processed
          cross_encoder_ranking := cross_encoder_ranking o jd processed
          top_candidates := final_results o jd processed }

/-! ### Helper lemmas -/

/-- Stability of the modelled sort, filter form: the elements satisfying `p`,
when any two `p`-elements are related by `r`, keep exactly their input
relative order in the sorted output. -/
theorem filter_insertionSort_of_tied {α : Type} (r : α → α → Prop) [DecidableRel r]
    (p : α → Bool) (l : List α) (hp : ∀ a b, p a = true → p b = true → r a b) :
    (List.insertionSort r l).filter p = l.filter p := by
  have hpair : (l.filter p).Pairwise r := by
    apply List.pairwise_of_forall_mem_list
    intro a ha b hb
    exact hp a b (List.of_mem_filter ha) (List.of_mem_filter hb)
  have hsub : List.Sublist (l.filter p) (List.insertionSort r l) :=
    List.sublist_insertionSort hpair (List.filter_sublist l)
  have h1 : List.Sublist ((l.filter p).filter p) ((List.insertionSort r l).filter p) :=
    hsub.filter p
  rw [List.filter_filter] at h1
  simp only [Bool.and_self] at h1
  have h2 : ((List.insertionSort r l).filter p).length = (l.filter p).length :=
    ((List.perm_insertionSort r l).filter p).length_eq
  exact (h1.eq_of_length h2.symm).symm

/-- A dot product of a vector with itself is nonnegative. -/
theorem listDot_self_nonneg (a : List ℚ) : 0 ≤ listDot a a := by
  induction a with
  | nil => simp [listDot]
  | cons x xs ih =>
    simp only [listDot, List.zipWith_cons_cons, List.sum_cons] at ih ⊢
    nlinarith [mul_self_nonneg x]

/-- Cauchy–Schwarz for `listDot`. -/
theorem listDot_sq_le (a b : List ℚ) : listDot a b ^ 2 ≤ listDot a a * listDot b b := by
  induction a generalizing b with
  | nil => simp [listDot]
  | cons x xs ih =>
    cases b with
    | nil => simp [listDot]
    | cons y ys =>
      have h := ih ys
      have hA := listDot_self_nonneg xs
      have hB := listDot_self_nonneg ys
      simp only [listDot, List.zipWith_cons_cons, List.sum_cons] at h hA hB ⊢
      set A := (List.zipWith (· * ·) xs xs).sum with hAdef
      set B := (List.zipWith (· * ·) ys ys).sum with hBdef
      set D := (List.zipWith (· * ·) xs ys).sum with hDdef
      rcases eq_or_lt_of_le hB with hB0 | hBpos
      · rw [← hB0, mul_zero] at h
        have hD2 : D ^ 2 = 0 := le_antisymm h (sq_nonneg D)
        have hD0 : D = 0 := by
          have h2 : (2 : ℕ) ≠ 0 := by norm_num
          exact (pow_eq_zero_iff h2).mp hD2
        rw [hD0, ← hB0]
        nlinarith [mul_nonneg hA (mul_self_nonneg y)]
      · nlinarith [sq_nonneg (x * B - y * D),
          mul_nonneg (sub_nonneg.mpr h) (mul_self_nonneg y),
          mul_nonneg (sub_nonneg.mpr h) (le_of_lt hBpos), hBpos]

/-! ### Claims -/

/-- The reputation formula exactly as the specification words it:
`A = min(100, repos*2 + followers*1 + stars*0.5)`,
`B = min(100, solved_B*0.5)`, `C = min(100, solved_C*0.3 + rating*0.05)`,
`reputation = min(100, A*0.4 + B*0.4 + C*0.2)`. Stated separately from
`calculate_social_score` so that the two can be compared. -/
def reputationScoreSpec (repos followers stars solved_B solved_C rating : Nat) : ℚ :=
  let A := min 100 ((repos : ℚ) * 2 + (followers : ℚ) * 1 + (stars : ℚ) * (1/2))
  let B := min 100 ((solved_B : ℚ) * (1/2))
  let C := min 100 ((solved_C : ℚ) * (3/10) + (rating : ℚ) * (1/20))
  min 100 (A * (2/5) + B * (2/5) + C * (1/5))

/-- C5: for all non-negative integer inputs the reputation score computed by
`calculate_social_score` equals the specification's two-level min-clipped
weighted formula, and a missing source (the all-zero default dict) contributes
a zero sub-score that is still multiplied by its weight in the sum. -/
theorem C5_reputation_formula (repos followers stars solved_B solved_C rating : Nat) :
    calculate_social_score ⟨repos, followers, stars⟩ ⟨solved_B⟩ ⟨solved_C, rating⟩
      = reputationScoreSpec repos followers stars solved_B solved_C rating
    ∧ ∀ (l : LeetcodeData) (c : CodechefData),
        calculate_social_score zeroGithub l c
          = min 100 (0 * (2/5) + leetcode_score l * (2/5) + codechef_score c * (1/5)) := by
  constructor
  · rfl
  · intro l c
    have hz : github_score zeroGithub = 0 := by
      simp [github_score, zeroGithub]
    rw [calculate_social_score, hz]

/-- C6: the reputation score is monotonically non-decreasing in each of its
six inputs (jointly, hence in each one with the others held fixed), and each
sub-score as well as the overall score is clipped at 100. -/
theorem C6_reputation_monotone (g g' : GithubData) (l l' : LeetcodeData)
    (c c' : CodechefData)
    (h1 : g.public_repos ≤ g'.public_repos) (h2 : g.followers ≤ g'.followers)
    (h3 : g.total_stars ≤ g'.total_stars) (h4 : l.total_solved ≤ l'.total_solved)
    (h5 : c.problems_solved ≤ c'.problems_solved) (h6 : c.rating ≤ c'.rating) :
    calculate_social_score g l c ≤ calculate_social_score g' l' c'
    ∧ github_score g ≤ 100 ∧ leetcode_score l ≤ 100 ∧ codechef_score c ≤ 100
    ∧ calculate_social_score g l c ≤ 100 := by
  have q1 : (g.public_repos : ℚ) ≤ g'.public_repos := by exact_mod_cast h1
  have q2 : (g.followers : ℚ) ≤ g'.followers := by exact_mod_cast h2
  have q3 : (g.total_stars : ℚ) ≤ g'.total_stars := by exact_mod_cast h3
  have q4 : (l.total_solved : ℚ) ≤ l'.total_solved := by exact_mod_cast h4
  have q5 : (c.problems_solved : ℚ) ≤ c'.problems_solved := by exact_mod_cast h5
  have q6 : (c.rating : ℚ) ≤ c'.rating := by exact_mod_cast h6
  have hg : github_score g ≤ github_score g' := by
    apply min_le_min le_rfl
    linarith
  have hl : leetcode_score l ≤ leetcode_score l' := by
    apply min_le_min le_rfl
    linarith
  have hc : codechef_score c ≤ codechef_score c' := by
    apply min_le_min le_rfl
    linarith
  refine ⟨?_, min_le_left _ _, min_le_left _ _, min_le_left _ _, min_le_left _ _⟩
  apply min_le_min le_rfl
  linarith

/-- Witness for C6 at concrete inputs. -/
theorem C6_witness :
    calculate_social_score ⟨0, 0, 0⟩ ⟨0⟩ ⟨0, 0⟩ ≤ calculate_social_score ⟨1, 1, 1⟩ ⟨2⟩ ⟨3, 4⟩
    ∧ github_score ⟨0, 0, 0⟩ ≤ 100 ∧ leetcode_score ⟨0⟩ ≤ 100 ∧ codechef_score ⟨0, 0⟩ ≤ 100
    ∧ calculate_social_score ⟨0, 0, 0⟩ ⟨0⟩ ⟨0, 0⟩ ≤ 100 :=
  C6_reputation_monotone ⟨0, 0, 0⟩ ⟨1, 1, 1⟩ ⟨0⟩ ⟨2⟩ ⟨0, 0⟩ ⟨3, 4⟩
    (by decide) (by decide) (by decide) (by decide) (by decide) (by decide)

/-- A trivial oracle assignment used by the concrete witnesses: every text
embeds to `[1]` with norm `1`, the cross-encoder returns `1/2`, no usernames
are recognized. -/
def exOracle : Oracles :=
  { embed := fun _ => [1]
    norm := fun _ => 1
    crossScore := fun _ _ => some (1/2)
    usernamesOf := fun _ => ⟨none, none, none⟩
    fetchGithub := fun _ => zeroGithub
    fetchLeetcode := fun _ => zeroLeetcode
    fetchCodechef := fun _ => zeroCodechef }

/-- A concrete processed resume used by the witnesses. -/
def exResume : ResumeData := ⟨"a.pdf", "text", none⟩

theorem length_mkCandidates (o : Oracles) (jd : String) (rs : List ResumeData) :
    (mkCandidates o jd rs).length = rs.length := by
  simp [mkCandidates]

theorem length_retrievalSorted (o : Oracles) (jd : String) (rs : List ResumeData) :
    (retrievalSorted o jd rs).length = rs.length := by
  simp [retrievalSorted, List.length_insertionSort, length_mkCandidates]

theorem length_shortlist (o : Oracles) (jd : String) (rs : List ResumeData) :
    (shortlist o jd rs).length = min 20 rs.length := by
  simp only [shortlist, List.length_take, length_retrievalSorted]
  omega

theorem length_finalSorted (o : Oracles) (jd : String) (rs : List ResumeData) :
    (finalSorted o jd rs).length = (shortlist o jd rs).length := by
  simp [finalSorted, fusedShortlist, rerankedShortlist, List.length_insertionSort]

theorem length_final_results (o : Oracles) (jd : String) (rs : List ResumeData) :
    (final_results o jd rs).length = min 10 (min 20 rs.length) := by
  simp only [final_results, List.length_take, length_finalSorted, length_shortlist]

/-- C2: the shortlist has exactly `min 20 N` entries for a batch of `N`
surviving candidates, the final ranking exactly `min 10 (shortlist size)`
entries (hence at most that many), giving the chain
`len final ≤ min 10 (len shortlist) ≤ min 20 N`; a batch of 25 candidates
yields a shortlist of exactly 20 and a final ranking of exactly 10. -/
theorem C2_shortlist_and_final_sizes (o : Oracles) (jd : String) (rs : List ResumeData) :
    (shortlist o jd rs).length = min 20 rs.length
    ∧ (final_results o jd rs).length = min 10 (shortlist o jd rs).length
    ∧ (final_results o jd rs).length ≤ min 10 (shortlist o jd rs).length
    ∧ min 10 (shortlist o jd rs).length ≤ min 20 rs.length
    ∧ (shortlist o jd (List.replicate 25 exResume)).length = 20
    ∧ (final_results o jd (List.replicate 25 exResume)).length = 10 := by
  have h1 := length_shortlist o jd rs
  have h2 := length_final_results o jd rs
  have h3 := length_shortlist o jd (List.replicate 25 exResume)
  have h4 := length_final_results o jd (List.replicate 25 exResume)
  simp only [List.length_replicate] at h3 h4
  refine ⟨h1, ?_, ?_, ?_, ?_, ?_⟩ <;> omega

/-- C1: every candidate leaving the score-fusion loop carries
`combined_score = (bi_encoder_score*0.3 + cross_encoder_score*0.7)*0.7
+ social_score*0.3`, i.e. the two-step contextual/combined formula. -/
theorem C1_combined_score_formula (o : Oracles) (jd : String) (rs : List ResumeData)
    (c : FusedCandidate) (hc : c ∈ fusedShortlist o jd rs) :
    c.combined_score =
      (c.base.bi_encoder_score * (3/10) + c.cross_encoder_score * (7/10)) * (7/10)
        + c.social_score * (3/10) := by
  rcases List.mem_map.mp hc with ⟨d, _, rfl⟩
  rfl

/-- The candidate the bi-encoder stage builds from `exResume` under `exOracle`. -/
def exCandidate : Candidate :=
  ⟨"a.pdf", retrievalSim exOracle "jd" "text" * 100, "text"⟩

/-- The fused candidate the pipeline builds from `exResume` under `exOracle`. -/
def exFused : FusedCandidate := fuseOne exOracle (rerankOne exOracle "jd" exCandidate)

/-- Witness for C1 at a concrete batch. -/
theorem C1_witness :
    exFused ∈ fusedShortlist exOracle "jd" [exResume]
    ∧ exFused.combined_score =
      (exFused.base.bi_encoder_score * (3/10) + exFused.cross_encoder_score * (7/10)) * (7/10)
        + exFused.social_score * (3/10) :=
  ⟨List.mem_singleton.mpr rfl,
   C1_combined_score_formula exOracle "jd" [exResume] exFused (List.mem_singleton.mpr rfl)⟩

/-- C4: when the cross-encoder call fails for a shortlisted candidate, its
`cross_encoder_score` is exactly its `bi_encoder_score`, the candidate stays
in the reranked shortlist, and no candidate is dropped (the reranked list has
the same length as the shortlist). -/
theorem C4_rerank_fallback (o : Oracles) (jd : String) (rs : List ResumeData)
    (c : Candidate) (hc : c ∈ shortlist o jd rs)
    (hfail : o.crossScore jd c.resume_text = none) :
    (rerankOne o jd c).cross_encoder_score = c.bi_encoder_score
    ∧ rerankOne o jd c ∈ rerankedShortlist o jd rs
    ∧ (rerankedShortlist o jd rs).length = (shortlist o jd rs).length := by
  refine ⟨?_, List.mem_map_of_mem _ hc, by simp [rerankedShortlist]⟩
  simp [rerankOne, hfail]

/-- The oracle whose cross-encoder always raises. -/
def exOracleFail : Oracles := { exOracle with crossScore := fun _ _ => none }

/-- The candidate the bi-encoder stage builds from `exResume` under `exOracleFail`. -/
def exCandidateFail : Candidate :=
  ⟨"a.pdf", retrievalSim exOracleFail "jd" "text" * 100, "text"⟩

/-- Witness for C4 at a concrete batch whose cross-encoder raises. -/
theorem C4_witness :
    (rerankOne exOracleFail "jd" exCandidateFail).cross_encoder_score
        = exCandidateFail.bi_encoder_score
    ∧ rerankOne exOracleFail "jd" exCandidateFail
        ∈ rerankedShortlist exOracleFail "jd" [exResume]
    ∧ (rerankedShortlist exOracleFail "jd" [exResume]).length
        = (shortlist exOracleFail "jd" [exResume]).length :=
  C4_rerank_fallback exOracleFail "jd" [exResume] exCandidateFail
    (List.mem_singleton.mpr rfl) rfl

/-- C3: the retrieval ranking is a permutation of the candidates in
ingestion order, is sorted descending by `bi_encoder_score`, and is stable:
for every score value, the candidates carrying exactly that score appear in
the output in their input relative order (so reversing the input order of
tied candidates reverses exactly their output order); the
`bi_encoder_ranking` payload is the projection of that sorted list (the
second `sorted` call re-sorts an already sorted list). -/
theorem C3_retrieval_stable_sort (o : Oracles) (jd : String) (rs : List ResumeData) :
    List.Perm (retrievalSorted o jd rs) (mkCandidates o jd rs)
    ∧ (retrievalSorted o jd rs).Pairwise biDesc
    ∧ (∀ s : ℚ, (retrievalSorted o jd rs).filter (fun c => decide (c.bi_encoder_score = s))
        = (mkCandidates o jd rs).filter (fun c => decide (c.bi_encoder_score = s)))
    ∧ bi_encoder_ranking o jd rs = (retrievalSorted o jd rs).map
        (fun c => { filename := c.filename
                    bi_encoder_score := c.bi_encoder_score
                    resume_text := c.resume_text }) := by
  refine ⟨List.perm_insertionSort _ _, List.sorted_insertionSort _ _, ?_, ?_⟩
  · intro s
    apply filter_insertionSort_of_tied
    intro a b ha hb
    have ha' : a.bi_encoder_score = s := of_decide_eq_true ha
    have hb' : b.bi_encoder_score = s := of_decide_eq_true hb
    show b.bi_encoder_score ≤ a.bi_encoder_score
    rw [ha', hb']
  · unfold bi_encoder_ranking
    have hs : List.Sorted biDesc (retrievalSorted o jd rs) :=
      List.sorted_insertionSort biDesc (mkCandidates o jd rs)
    rw [hs.insertionSort_eq]

/-- C7: the retrieval score is the cosine similarity times 100 with no
rescaling; whenever the norm oracle really is the product of the Euclidean
norms (its square is the product of the self dot products) and is positive,
the score lies in `[-100, 100]`; and the retrieval ranking is descending, so
any pair in output order has the later score at most the earlier one (a
negative score never precedes a larger one). -/
theorem C7_retrieval_cosine_scaling (o : Oracles) (jd t : String) (rs : List ResumeData)
    (hnorm : (o.norm jd * o.norm t) ^ 2
        = listDot (o.embed jd) (o.embed jd) * listDot (o.embed t) (o.embed t))
    (hpos : 0 < o.norm jd * o.norm t) :
    retrievalSim o jd t
        = listDot (o.embed jd) (o.embed t) / (o.norm jd * o.norm t)
    ∧ -100 ≤ retrievalSim o jd t * 100
    ∧ retrievalSim o jd t * 100 ≤ 100
    ∧ (retrievalSorted o jd rs).Pairwise biDesc
    ∧ ∀ c1 c2 : Candidate, List.Sublist [c1, c2] (retrievalSorted o jd rs) →
        c2.bi_encoder_score ≤ c1.bi_encoder_score := by
  have hcs := listDot_sq_le (o.embed jd) (o.embed t)
  rw [← hnorm] at hcs
  have hDle : listDot (o.embed jd) (o.embed t) ≤ o.norm jd * o.norm t := by
    nlinarith [hcs, hpos]
  have hDge : -(o.norm jd * o.norm t) ≤ listDot (o.embed jd) (o.embed t) := by
    nlinarith [hcs, hpos]
  have hsim1 : retrievalSim o jd t ≤ 1 := by
    rw [retrievalSim]
    exact (div_le_one hpos).mpr hDle
  have hsim2 : -1 ≤ retrievalSim o jd t := by
    rw [retrievalSim]
    rw [le_div_iff₀ hpos]
    linarith
  refine ⟨rfl, by linarith, by linarith, List.sorted_insertionSort _ _, ?_⟩
  intro c1 c2 hsub
  have hpair : List.Pairwise biDesc [c1, c2] :=
    (List.sorted_insertionSort biDesc _).sublist hsub
  exact List.rel_of_pairwise_cons hpair (List.mem_singleton.mpr rfl)

/-- Witness for C7 with unit vectors: the score is in range. -/
theorem C7_witness :
    -100 ≤ retrievalSim exOracle "jd" "text" * 100
    ∧ retrievalSim exOracle "jd" "text" * 100 ≤ 100 :=
  ⟨(C7_retrieval_cosine_scaling exOracle "jd" "text" [exResume]
      (by simp [listDot, exOracle]) (by simp [exOracle])).2.1,
   (C7_retrieval_cosine_scaling exOracle "jd" "text" [exResume]
      (by simp [listDot, exOracle]) (by simp [exOracle])).2.2.1⟩

/-- C8: a candidate whose extracted text is empty is dropped silently
(removing such a file from the upload list does not change the processed
batch) and the run fails with the empty-batch client error exactly when zero
candidates survive extraction. -/
theorem C8_empty_text_policy (o : Oracles) (translate : String → String) (jd : String)
    (files : List RawFile) :
    (runPipeline o translate jd files = Except.error PipelineError.emptyBatch
        ↔ processUploads translate files = [])
    ∧ (processUploads translate files = [] ↔ ∀ f ∈ files, f.extractedText = "")
    ∧ ∀ (pre post : List RawFile) (e : RawFile), e.extractedText = "" →
        processUploads translate (pre ++ e :: post) = processUploads translate (pre ++ post) := by
  refine ⟨?_, ?_, ?_⟩
  · unfold runPipeline
    cases h : (processUploads translate files).isEmpty with
    | true => simp [h, List.isEmpty_iff.mp h]
    | false =>
      have : processUploads translate files ≠ [] := by
        intro hnil
        rw [hnil] at h
        simp at h
      simp [h, this]
  · rw [processUploads, List.filterMap_eq_nil_iff]
    constructor
    · intro h f hf
      have hx := h f hf
      by_contra hne
      rw [if_neg hne] at hx
      exact Option.some_ne_none _ hx
    · intro h f hf
      rw [if_pos (h f hf)]
  · intro pre post e he
    simp [processUploads, List.filterMap_append, List.filterMap_cons, he]

/-- Witness for C8: a single empty-text upload fails the run with the
empty-batch error; an empty-text upload among others is dropped silently. -/
theorem C8_witness :
    runPipeline exOracle id "jd" [⟨"a.pdf", ""⟩] = Except.error PipelineError.emptyBatch
    ∧ processUploads id [⟨"bad.pdf", ""⟩, ⟨"b.pdf", "text"⟩]
        = processUploads id [⟨"b.pdf", "text"⟩] :=
  ⟨(C8_empty_text_policy exOracle id "jd" [⟨"a.pdf", ""⟩]).1.mpr rfl,
   (C8_empty_text_policy exOracle id "jd" []).2.2 [] [⟨"b.pdf", "text"⟩] ⟨"bad.pdf", ""⟩ rfl⟩

/-- C9: every candidate is scored on its effective text (`translated_text`
when present and non-empty, else `original_text`): the bi-encoder stage
stores the effective text and scores it, every shortlisted candidate (which
the rerank and username stages consume through `resume_text`) carries the
effective text of one of the processed resumes, and under the data-model
invariant (one of the two texts non-empty) the effective text is non-empty. -/
theorem C9_effective_text (o : Oracles) (jd : String) (rs : List ResumeData) :
    mkCandidates o jd rs = rs.map (fun r =>
      { filename := r.filename
        bi_encoder_score := retrievalSim o jd (effectiveText r) * 100
        resume_text := effectiveText r })
    ∧ (∀ c ∈ shortlist o jd rs, ∃ r ∈ rs, c.resume_text = effectiveText r
        ∧ c.bi_encoder_score = retrievalSim o jd (effectiveText r) * 100)
    ∧ ∀ r : ResumeData,
        (r.original_text ≠ "" ∨ ∃ t, r.translated_text = some t ∧ t ≠ "") →
        effectiveText r ≠ "" := by
  refine ⟨rfl, ?_, ?_⟩
  · intro c hc
    have hc1 : c ∈ retrievalSorted o jd rs := List.mem_of_mem_take hc
    have hc2 : c ∈ mkCandidates o jd rs := (List.mem_insertionSort biDesc).mp hc1
    rcases List.mem_map.mp hc2 with ⟨r, hr, rfl⟩
    exact ⟨r, hr, rfl, rfl⟩
  · intro r h
    rcases h with h | ⟨t, ht, hne⟩
    · unfold effectiveText
      cases htr : r.translated_text with
      | none => exact h
      | some t =>
        by_cases ht0 : t = ""
        · simpa [ht0] using h
        · simp [ht0]
    · unfold effectiveText
      rw [ht]
      simp [hne]

/-- Witness for C9: both sides of the invariant yield a non-empty effective
text at concrete resumes. -/
theorem C9_witness :
    effectiveText ⟨"a.pdf", "text", none⟩ ≠ ""
    ∧ effectiveText ⟨"b.pdf", "", some "hola"⟩ ≠ "" :=
  ⟨(C9_effective_text exOracle "jd" []).2.2 ⟨"a.pdf", "text", none⟩ (Or.inl (by decide)),
   (C9_effective_text exOracle "jd" []).2.2 ⟨"b.pdf", "", some "hola"⟩
     (Or.inr ⟨"hola", rfl, by decide⟩)⟩

/-- An oracle under which the cross-encoder order differs from the combined
order: candidate text `"A"` gets bi-encoder 100 and cross-encoder 0,
candidate text `"B"` gets bi-encoder 0 and cross-encoder 25. -/
def exOracleMix : Oracles :=
  { embed := fun s => if s = "A" then [1] else if s = "B" then [0] else [1]
    norm := fun _ => 1
    crossScore := fun _ t => if t = "A" then some 0 else some (1/4)
    usernamesOf := fun _ => ⟨none, none, none⟩
    fetchGithub := fun _ => zeroGithub
    fetchLeetcode := fun _ => zeroLeetcode
    fetchCodechef := fun _ => zeroCodechef }

/-- Resume with effective text `"A"`. -/
def resA : ResumeData := ⟨"A.pdf", "A", none⟩

/-- Resume with effective text `"B"`. -/
def resB : ResumeData := ⟨"B.pdf", "B", none⟩

/-- C10: the `cross_encoder_ranking` payload is built from the shortlist
after its in-place sort by `combined_score`, so it follows the combined
order, not the cross-encoder order: it is the projection of the
combined-sorted list, that list is descending in `combined_score`, and in a
concrete batch where the two orders differ the payload's cross-encoder
scores come out ascending (`[0, 25]`) while its combined order puts the
bi-encoder-strong candidate first. -/
theorem C10_cross_ranking_combined_order (o : Oracles) (jd : String) (rs : List ResumeData) :
    cross_encoder_ranking o jd rs = (finalSorted o jd rs).map
      (fun c => { filename := c.base.filename
                  bi_encoder_score := c.base.bi_encoder_score
                  cross_encoder_score := c.cross_encoder_score
                  resume_text := c.base.resume_text })
    ∧ (finalSorted o jd rs).Pairwise combinedDesc
    ∧ (cross_encoder_ranking exOracleMix "jd" [resA, resB]).map
        (fun e => e.cross_encoder_score) = [0, 25]
    ∧ (cross_encoder_ranking exOracleMix "jd" [resA, resB]).map
        (fun e => e.filename) = ["A.pdf", "B.pdf"] := by
  have h1 : mkCandidates exOracleMix "jd" [resA, resB]
      = [⟨"A.pdf", 100, "A"⟩, ⟨"B.pdf", 0, "B"⟩] := by
    simp [mkCandidates, retrievalSim, listDot, effectiveText, exOracleMix, resA, resB]
  have h2 : shortlist exOracleMix "jd" [resA, resB]
      = [⟨"A.pdf", 100, "A"⟩, ⟨"B.pdf", 0, "B"⟩] := by
    simp only [shortlist, retrievalSorted, h1]
    norm_num [biDesc, min_def]
  have hz : calculate_social_score zeroGithub zeroLeetcode zeroCodechef = 0 := by
    norm_num [calculate_social_score, github_score, leetcode_score, codechef_score,
      zeroGithub, zeroLeetcode, zeroCodechef, min_def]
  have h3 : fusedShortlist exOracleMix "jd" [resA, resB]
      = [⟨⟨"A.pdf", 100, "A"⟩, 0, zeroGithub, zeroLeetcode, zeroCodechef, 0, 21⟩,
         ⟨⟨"B.pdf", 0, "B"⟩, 25, zeroGithub, zeroLeetcode, zeroCodechef, 0, 49/4⟩] := by
    simp only [fusedShortlist, rerankedShortlist, h2, List.map_cons, List.map_nil]
    simp [fuseOne, rerankOne, exOracleMix, hz]
    all_goals norm_num
  have h4 : finalSorted exOracleMix "jd" [resA, resB]
      = [⟨⟨"A.pdf", 100, "A"⟩, 0, zeroGithub, zeroLeetcode, zeroCodechef, 0, 21⟩,
         ⟨⟨"B.pdf", 0, "B"⟩, 25, zeroGithub, zeroLeetcode, zeroCodechef, 0, 49/4⟩] := by
    simp only [finalSorted, h3]
    norm_num [combinedDesc]
  refine ⟨rfl, List.sorted_insertionSort _ _, ?_, ?_⟩ <;>
  · simp only [cross_encoder_ranking, h4, List.map_cons, List.map_nil]

end ResumeShortlist
